import Mathlib

/-!
# Verification of `can_signals.h`

A shallow embedding of the CAN signal decoder header `src/can_signals.h`
(generated from `mx5_afmconv.dbc`) and proofs of its specified properties.

Modelling conventions

* `uint8_t` is `Byte = Fin 256`; a buffer `const uint8_t*` is a `List Byte`.
  Reading outside the list is undefined behaviour in C++ and is `none` here, so
  every function that dereferences the buffer returns an `Option`.
* `int` and `int16_t` values are mathematical integers (`Int`); the narrowing
  cast `(int16_t)` is the explicit wrap `toInt16`.
* `float` is IEEE-754 binary32 with round-to-nearest-even, each arithmetic
  operation of the source expression rounded on its own (`F32`).
* `uint32_t` timestamps are naturals reduced modulo `2 ^ 32`.
* `millis()` belongs to the Arduino core, not to this header: the tick value it
  returns is passed to the decoders as the extra argument `millis`.
-/

set_option exponentiation.threshold 512
set_option maxRecDepth 4000

namespace CanSignals

/-! ## Bytes and buffers -/

/-- A `uint8_t` value. -/
abbrev Byte := Fin 256

/-- The read `data[i]` of a buffer with an `int` index: `none` outside the buffer. -/
def readByte (data : List Byte) (i : Int) : Option Byte :=
  if 0 ≤ i then data[i.toNat]? else none

/-- The cast `(int16_t) v`: the low 16 bits of `v` read as two's complement. -/
def toInt16 (v : Int) : Int :=
  if v % 65536 < 32768 then v % 65536 else v % 65536 - 65536

/-- Source lines 72-74,
`return (int16_t)((data[byteOffset] << 8) | data[byteOffset + 1]);`.
Both bytes are promoted to `int` before the shift and the bitwise or. -/
def decodeSignedBE16 (data : List Byte) (byteOffset : Int) : Option Int :=
  match readByte data byteOffset, readByte data (byteOffset + 1) with
  | some hi, some lo => some (toInt16 (((hi.val <<< 8) ||| lo.val : Nat) : Int))
  | _, _ => none

/-! ## Message identifiers (source lines 15-16) -/

/-- Source line 15, `#define CAN_ID_AFMCONV1 0x001`. -/
def CAN_ID_AFMCONV1 : Nat := 0x001
/-- Source line 16, `#define CAN_ID_AFMCONV2 0x002`. -/
def CAN_ID_AFMCONV2 : Nat := 0x002

/-! ## IEEE-754 binary32 -/

/-- A binary32 value. Every finite binary32 number is an integer multiple of
`2 ^ (-149)`, the smallest subnormal, and `fin k` stands for `k * 2 ^ (-149)`.
The two zeros, which compare equal in C++, are both `fin 0`. -/
inductive F32 where
  | fin (k : Int)
  | inf (neg : Bool)
  | nan
deriving DecidableEq, Repr

namespace F32

/-- Worker of `bitLength`: halve `n` until it is zero, at most `fuel` times. -/
def bitLength.go : Nat → Nat → Nat
  | 0, _ => 0
  | fuel + 1, n => if n = 0 then 0 else go fuel (n / 2) + 1

/-- The number of significant bits of `n` (`0` for `0`, otherwise `⌊log₂ n⌋ + 1`). -/
def bitLength (n : Nat) : Nat := bitLength.go n n

/-- Round-to-nearest-even of the exact magnitude `n / (d * 2 ^ (149 + s))` to
binary32, with sign `neg`. Work in units of `2 ^ (-(149 + s))`: with `b` the
bit length of the integer part of `n / d`, one unit in the last place is
`2 ^ u` units where `u = max (b - 24) s` (24 significant bits, and never finer
than the subnormal spacing `2 ^ (-149)`). The magnitude is divided by that
unit, the quotient goes up when the remainder is above one half, or equal to
one half with an odd quotient, and a rounded magnitude of `2 ^ 128` or more
overflows to infinity. -/
def round (neg : Bool) (n d s : Nat) : F32 :=
  let u := max (bitLength (n / d) - 24) s
  let q := n / (d * 2 ^ u)
  let r := n % (d * 2 ^ u)
  let q1 := if d * 2 ^ u < 2 * r ∨ (2 * r = d * 2 ^ u ∧ q % 2 = 1) then q + 1 else q
  let k := q1 * 2 ^ (u - s)
  if 2 ^ 277 ≤ k then inf neg else fin (if neg then -(k : Int) else (k : Int))

/-- The decimal literal `m / 10 ^ e` with suffix `f`, e.g. `0.1f` is `lit 1 1`
and `1500.0f` is `lit 15000 1`: the binary32 number nearest to it. -/
def lit (m e : Nat) : F32 :=
  round false (m * 2 ^ 149) (10 ^ e) 0

/-- Unary minus. -/
def neg : F32 → F32
  | fin k => fin (-k)
  | inf n => inf (!n)
  | nan => nan

/-- The conversion `(float) i` of an integer. -/
def ofInt (i : Int) : F32 :=
  round (decide (i < 0)) (i.natAbs * 2 ^ 149) 1 0

/-- Binary32 multiplication `a * b`: the exact product, a multiple of
`2 ^ (-298)`, rounded once. -/
def mul : F32 → F32 → F32
  | fin a, fin b => round (decide (a * b < 0)) (a * b).natAbs 1 149
  | fin a, inf n => if a = 0 then nan else inf (n != decide (a < 0))
  | inf n, fin b => if b = 0 then nan else inf (n != decide (b < 0))
  | inf n, inf m => inf (n != m)
  | _, _ => nan

/-- Binary32 addition `a + b`: the exact sum rounded once. -/
def add : F32 → F32 → F32
  | fin a, fin b => round (decide (a + b < 0)) (a + b).natAbs 1 0
  | fin _, inf n => inf n
  | inf n, fin _ => inf n
  | inf n, inf m => if n = m then inf n else nan
  | _, _ => nan

/-- The rational value of a finite binary32 number. -/
def toRat : F32 → Option ℚ
  | fin k => some ((k : ℚ) / 2 ^ 149)
  | _ => none

end F32

/-! ## Signal scaling constants (source lines 22-48) -/

/-- Source line 23, `#define AFM_FREQ_FACTOR 1.0f`. -/
def AFM_FREQ_FACTOR : F32 := F32.lit 10 1
/-- Source line 24, `#define AFM_FREQ_OFFSET 0.0f`. -/
def AFM_FREQ_OFFSET : F32 := F32.lit 0 1
/-- Source line 25, `#define AFM_FREQ_MIN 1500.0f`. -/
def AFM_FREQ_MIN : F32 := F32.lit 15000 1
/-- Source line 26, `#define AFM_FREQ_MAX 20000.0f`. -/
def AFM_FREQ_MAX : F32 := F32.lit 200000 1

/-- Source line 30, `#define THA_FACTOR 0.1f`. -/
def THA_FACTOR : F32 := F32.lit 1 1
/-- Source line 31, `#define THA_OFFSET (-30.0f)`. -/
def THA_OFFSET : F32 := F32.neg (F32.lit 300 1)
/-- Source line 32, `#define THA_MIN (-20.0f)`. -/
def THA_MIN : F32 := F32.neg (F32.lit 200 1)
/-- Source line 33, `#define THA_MAX 120.0f`. -/
def THA_MAX : F32 := F32.lit 1200 1

/-- Source line 37, `#define RAW_GA_FACTOR 0.1f`. -/
def RAW_GA_FACTOR : F32 := F32.lit 1 1
/-- Source line 38, `#define RAW_GA_OFFSET 0.0f`. -/
def RAW_GA_OFFSET : F32 := F32.lit 0 1
/-- Source line 39, `#define RAW_GA_MIN 0.0f`. -/
def RAW_GA_MIN : F32 := F32.lit 0 1
/-- Source line 40, `#define RAW_GA_MAX 200.0f`. -/
def RAW_GA_MAX : F32 := F32.lit 2000 1

/-- Source line 44, `#define MCUTEMP_FACTOR 0.1f`. -/
def MCUTEMP_FACTOR : F32 := F32.lit 1 1
/-- Source line 45, `#define MCUTEMP_OFFSET (-30.0f)`. -/
def MCUTEMP_OFFSET : F32 := F32.neg (F32.lit 300 1)
/-- Source line 46, `#define MCUTEMP_MIN (-20.0f)`. -/
def MCUTEMP_MIN : F32 := F32.neg (F32.lit 200 1)
/-- Source line 47, `#define MCUTEMP_MAX 120.0f`. -/
def MCUTEMP_MAX : F32 := F32.lit 1200 1

/-! ## Signal state and message decoders -/

/-- Source lines 53-66, the struct `CANSignals_t`. The two `uint32_t`
timestamps are naturals; every store into them is reduced modulo `2 ^ 32`. -/
structure CANSignals_t where
  afm_freq : F32
  tha : F32
  raw_ga : F32
  mcu_temp : F32
  afm_freq_valid : Bool
  tha_valid : Bool
  raw_ga_valid : Bool
  mcu_temp_valid : Bool
  last_update_afmconv1 : Nat
  last_update_afmconv2 : Nat
deriving DecidableEq, Repr

/-- Source lines 85-104. `millis` is the value returned by the call `millis()`
on line 103. -/
def decodeAFMConv1 (data : List Byte) (signals : CANSignals_t) (millis : Nat) :
    Option CANSignals_t := do
  let raw_afm_freq ← decodeSignedBE16 data 0
  let signals := { signals with
    afm_freq := F32.add (F32.mul (F32.ofInt raw_afm_freq) AFM_FREQ_FACTOR) AFM_FREQ_OFFSET }
  let signals := { signals with afm_freq_valid := true }
  let raw_tha ← decodeSignedBE16 data 2
  let signals := { signals with
    tha := F32.add (F32.mul (F32.ofInt raw_tha) THA_FACTOR) THA_OFFSET }
  let signals := { signals with tha_valid := true }
  let raw_raw_ga ← decodeSignedBE16 data 4
  let signals := { signals with
    raw_ga := F32.add (F32.mul (F32.ofInt raw_raw_ga) RAW_GA_FACTOR) RAW_GA_OFFSET }
  let signals := { signals with raw_ga_valid := true }
  pure { signals with last_update_afmconv1 := millis % 2 ^ 32 }

/-- Source lines 111-122. `millis` is the value returned by the call `millis()`
on line 121. -/
def decodeAFMconv2 (data : List Byte) (signals : CANSignals_t) (millis : Nat) :
    Option CANSignals_t := do
  let raw_mcu_temp ← decodeSignedBE16 data 6
  let signals := { signals with
    mcu_temp := F32.add (F32.mul (F32.ofInt raw_mcu_temp) MCUTEMP_FACTOR) MCUTEMP_OFFSET }
  let signals := { signals with mcu_temp_valid := true }
  pure { signals with last_update_afmconv2 := millis % 2 ^ 32 }

/-- Source lines 128-141. -/
def initCANSignals (signals : CANSignals_t) : CANSignals_t :=
  let signals := { signals with afm_freq := F32.lit 0 1 }
  let signals := { signals with tha := F32.lit 0 1 }
  let signals := { signals with raw_ga := F32.lit 0 1 }
  let signals := { signals with mcu_temp := F32.lit 0 1 }
  let signals := { signals with afm_freq_valid := false }
  let signals := { signals with tha_valid := false }
  let signals := { signals with raw_ga_valid := false }
  let signals := { signals with mcu_temp_valid := false }
  let signals := { signals with last_update_afmconv1 := 0 }
  { signals with last_update_afmconv2 := 0 }

/-! ## Sample inputs -/

/-- The Message 0x001 frame `07 D0 01 2C 00 64 00 00`. -/
def frame001 : List Byte := [0x07, 0xD0, 0x01, 0x2C, 0x00, 0x64, 0x00, 0x00]

/-- The Message 0x002 frame `00 00 00 00 00 00 03 20`. -/
def frame002 : List Byte := [0x00, 0x00, 0x00, 0x00, 0x00, 0x00, 0x03, 0x20]

/-- A state in which all four signals have been received: 3000 Hz, 25.0 and
40.0 degrees, 12.5 g/s, at ticks 700 and 900. -/
def sampleState : CANSignals_t :=
  { afm_freq := F32.lit 30000 1
    tha := F32.lit 250 1
    raw_ga := F32.lit 125 1
    mcu_temp := F32.lit 400 1
    afm_freq_valid := true
    tha_valid := true
    raw_ga_valid := true
    mcu_temp_valid := true
    last_update_afmconv1 := 700
    last_update_afmconv2 := 900 }

/-- The Message 0x001 frame whose eight bytes are all zero. -/
def frameZero : List Byte := [0x00, 0x00, 0x00, 0x00, 0x00, 0x00, 0x00, 0x00]

/-! ## Sequences of calls -/

/-- One call into the header made by client code: a decode of a Message 0x001
frame or of a Message 0x002 frame, each with the tick that `millis()` returns
during the call, or a call of the initializer. -/
inductive Op where
  | conv1 (data : List Byte) (millis : Nat)
  | conv2 (data : List Byte) (millis : Nat)
  | reset

namespace Op

/-- The effect of one call on the signal state. -/
def apply : Op → CANSignals_t → Option CANSignals_t
  | conv1 data millis, s => decodeAFMConv1 data s millis
  | conv2 data millis, s => decodeAFMconv2 data s millis
  | reset, s => some (initCANSignals s)

/-- The call passes a frame of exactly 8 bytes (the initializer takes none). -/
def frameOk : Op → Bool
  | conv1 data _ => data.length == 8
  | conv2 data _ => data.length == 8
  | reset => true

/-- The call is one of the two message decoders. -/
def isDecode : Op → Bool
  | conv1 _ _ => true
  | conv2 _ _ => true
  | reset => false

end Op

/-- The state after a finite sequence of calls, made from left to right. -/
def run : List Op → CANSignals_t → Option CANSignals_t
  | [], s => some s
  | op :: ops, s => (op.apply s).bind (run ops)

/-- The consistency of flags, values and timestamps: the three Message 0x001
flags are equal, a signal whose flag is false has the value zero, and a
non-zero timestamp of a message means that the flags of its signals are true. -/
def Consistent (s : CANSignals_t) : Prop :=
  (s.afm_freq_valid = s.tha_valid ∧ s.tha_valid = s.raw_ga_valid) ∧
  ((s.afm_freq_valid = false → s.afm_freq = F32.fin 0) ∧
   (s.tha_valid = false → s.tha = F32.fin 0) ∧
   (s.raw_ga_valid = false → s.raw_ga = F32.fin 0) ∧
   (s.mcu_temp_valid = false → s.mcu_temp = F32.fin 0)) ∧
  (s.last_update_afmconv1 ≠ 0 →
    s.afm_freq_valid = true ∧ s.tha_valid = true ∧ s.raw_ga_valid = true) ∧
  (s.last_update_afmconv2 ≠ 0 → s.mcu_temp_valid = true)

/-! ## The byte decoder -/

/-- The shift-and-or of two bytes is the big-endian 16-bit number they spell. -/
theorem be16_or (hi lo : Byte) : (hi.val <<< 8) ||| lo.val = 256 * hi.val + lo.val := by
  have hlo : lo.val < 2 ^ 8 := lo.isLt
  rw [Nat.shiftLeft_eq, Nat.mul_comm, ← Nat.mul_add_lt_is_or hlo]

/-- An index inside the buffer reads the byte stored there. -/
theorem readByte_of_lt (data : List Byte) (i : Int) (h0 : 0 ≤ i)
    (h1 : i.toNat < data.length) : readByte data i = some (data[i.toNat]) := by
  simp [readByte, h0, List.getElem?_eq_getElem h1]

/-- The decoder on two readable bytes, in arithmetic form. -/
theorem decodeSignedBE16_of_read (data : List Byte) (off : Int) (hi lo : Byte)
    (hhi : readByte data off = some hi) (hlo : readByte data (off + 1) = some lo) :
    decodeSignedBE16 data off = some (toInt16 (256 * (hi.val : Int) + (lo.val : Int))) := by
  simp only [decodeSignedBE16, hhi, hlo, be16_or]
  push_cast
  rfl

/-- The cast to `int16_t` of a 16-bit pattern given by its two bytes. -/
theorem toInt16_bytes (hi lo : Byte) :
    toInt16 (256 * (hi.val : Int) + (lo.val : Int)) =
      if hi.val < 128 then 256 * (hi.val : Int) + (lo.val : Int)
      else 256 * (hi.val : Int) + (lo.val : Int) - 65536 := by
  have h1 := hi.isLt
  have h2 := lo.isLt
  unfold toInt16
  split_ifs <;> omega

/-- Claim C1. Round trip with a big-endian encoder: when the two bytes read at
`off` and `off + 1` are the high and low byte of the two's-complement pattern of
a signed 16-bit integer `r`, the decoder returns exactly `r`. -/
theorem decodeSignedBE16_roundtrip (data : List Byte) (off : Int) (r : Int) (hi lo : Byte)
    (hmin : -32768 ≤ r) (hmax : r ≤ 32767)
    (hhi : readByte data off = some hi) (hlo : readByte data (off + 1) = some lo)
    (ehi : (hi.val : Int) = r % 65536 / 256) (elo : (lo.val : Int) = r % 256) :
    decodeSignedBE16 data off = some r := by
  rw [decodeSignedBE16_of_read data off hi lo hhi hlo, ehi, elo]
  congr 1
  unfold toInt16
  split_ifs <;> omega

/-- Witness of claim C1: the pattern `0xFF38` of `-200` at offset 2. -/
theorem decodeSignedBE16_roundtrip_witness :
    decodeSignedBE16 [0x00, 0x00, 0xFF, 0x38, 0x00] 2 = some (-200) :=
  decodeSignedBE16_roundtrip [0x00, 0x00, 0xFF, 0x38, 0x00] 2 (-200) 0xFF 0x38
    (by decide) (by decide) (by decide) (by decide) (by decide) (by decide)

/-- Claim C2. Reference definition of the byte decoder: at every offset with
`0 ≤ off` and `off + 1` inside the buffer both bytes are read, and the result is
the function `256 * hi + lo` (for `hi < 128`) or `256 * hi + lo - 65536` (for
`hi ≥ 128`) of these two bytes alone; it lies in `[-32768, 32767]`. -/
theorem decodeSignedBE16_spec (data : List Byte) (off : Int)
    (h0 : 0 ≤ off) (h1 : off + 1 < data.length) :
    ∃ hi lo : Byte, readByte data off = some hi ∧ readByte data (off + 1) = some lo ∧
      ∃ r : Int, decodeSignedBE16 data off = some r ∧
        r = (if hi.val < 128 then 256 * (hi.val : Int) + (lo.val : Int)
             else 256 * (hi.val : Int) + (lo.val : Int) - 65536) ∧
        -32768 ≤ r ∧ r ≤ 32767 := by
  have a0 : off.toNat < data.length := by omega
  have a1 : (off + 1).toNat < data.length := by omega
  have r0 := readByte_of_lt data off h0 a0
  have r1 := readByte_of_lt data (off + 1) (by omega) a1
  refine ⟨_, _, r0, r1, _, decodeSignedBE16_of_read data off _ _ r0 r1, toInt16_bytes _ _, ?_, ?_⟩
  all_goals
    rw [toInt16_bytes]
    have b0 := (data[off.toNat]).isLt
    have b1 := (data[(off + 1).toNat]).isLt
    split_ifs <;> omega

/-- Witness of claim C2: the pattern `0xFF38` at offset 2 of a five-byte buffer. -/
theorem decodeSignedBE16_spec_witness :
    ∃ hi lo : Byte, readByte [0x00, 0x00, 0xFF, 0x38, 0x00] 2 = some hi ∧
      readByte [0x00, 0x00, 0xFF, 0x38, 0x00] (2 + 1) = some lo ∧
      ∃ r : Int, decodeSignedBE16 [0x00, 0x00, 0xFF, 0x38, 0x00] 2 = some r ∧
        r = (if hi.val < 128 then 256 * (hi.val : Int) + (lo.val : Int)
             else 256 * (hi.val : Int) + (lo.val : Int) - 65536) ∧
        -32768 ≤ r ∧ r ≤ 32767 :=
  decodeSignedBE16_spec [0x00, 0x00, 0xFF, 0x38, 0x00] 2 (by decide) (by decide)

/-! ## Literals of the scaling table -/

/-- The literal `1.0f` is the number one. -/
theorem lit_one : F32.lit 10 1 = F32.fin (2 ^ 149) := by decide

/-- The literal `0.0f` is zero. -/
theorem lit_zero : F32.lit 0 1 = F32.fin 0 := by decide

/-- The literal `0.1f` is `13421773 * 2 ^ (-27)`, bit pattern `0x3DCCCCCD`. -/
theorem lit_tenth : F32.lit 1 1 = F32.fin (13421773 * 2 ^ 122) := by decide

/-- The literal `(-30.0f)` is the number minus thirty. -/
theorem lit_neg_thirty : F32.neg (F32.lit 300 1) = F32.fin (-(30 * 2 ^ 149)) := by decide

/-! ## Exactness of binary32 rounding -/

namespace F32

/-- The worker never counts more bits than a power-of-two bound allows. -/
theorem bitLength_go_le (fuel : Nat) : ∀ n k : Nat, n < 2 ^ k → bitLength.go fuel n ≤ k := by
  induction fuel with
  | zero => intro n k _; simp [bitLength.go]
  | succ f ih =>
    intro n k h
    unfold bitLength.go
    split_ifs with hn
    · exact Nat.zero_le _
    · cases k with
      | zero => simp at h; exact absurd h hn
      | succ k =>
        have h2 : n / 2 < 2 ^ k := by
          rw [Nat.pow_succ] at h
          omega
        have := ih (n / 2) k h2
        omega

/-- A number below `2 ^ k` has at most `k` significant bits. -/
theorem bitLength_le (n k : Nat) (h : n < 2 ^ k) : bitLength n ≤ k :=
  bitLength_go_le n n k h

/-- Rounding is exact on a magnitude `m * 2 ^ j` with `m` of at most 24 bits that
is a multiple of the subnormal spacing (`s ≤ j`) and below `2 ^ 128`. -/
theorem round_exact (neg : Bool) (m j s : Nat) (hm : m < 2 ^ 24) (hj : s ≤ j)
    (hfin : m * 2 ^ (j - s) < 2 ^ 277) :
    round neg (m * 2 ^ j) 1 s =
      fin (if neg then -((m * 2 ^ (j - s) : Nat) : Int) else ((m * 2 ^ (j - s) : Nat) : Int)) := by
  have hb : bitLength (m * 2 ^ j / 1) ≤ 24 + j := by
    apply bitLength_le
    rw [Nat.div_one, Nat.pow_add]
    exact Nat.mul_lt_mul_of_pos_right hm (Nat.two_pow_pos j)
  have hu : max (bitLength (m * 2 ^ j / 1) - 24) s ≤ j := by omega
  have hs : s ≤ max (bitLength (m * 2 ^ j / 1) - 24) s := le_max_right _ _
  unfold round
  simp only []
  generalize max (bitLength (m * 2 ^ j / 1) - 24) s = u at hu hs ⊢
  have hsplit : m * 2 ^ j = m * 2 ^ (j - u) * 2 ^ u := by
    rw [Nat.mul_assoc, ← Nat.pow_add, Nat.sub_add_cancel hu]
  have hq : m * 2 ^ j / (1 * 2 ^ u) = m * 2 ^ (j - u) := by
    rw [Nat.one_mul, hsplit, Nat.mul_div_cancel _ (Nat.two_pow_pos u)]
  have hr : m * 2 ^ j % (1 * 2 ^ u) = 0 := by
    rw [Nat.one_mul, hsplit, Nat.mul_mod_left]
  have hk : m * 2 ^ (j - u) * 2 ^ (u - s) = m * 2 ^ (j - s) := by
    rw [Nat.mul_assoc, ← Nat.pow_add]
    congr 2
    omega
  have hpos : ¬ (1 * 2 ^ u < 2 * 0 ∨ (2 * 0 = 1 * 2 ^ u ∧ m * 2 ^ (j - u) % 2 = 1)) := by
    have := Nat.two_pow_pos u
    omega
  rw [hq, hr, if_neg hpos, hk, if_neg (not_le.mpr hfin)]

/-- The conversion of an integer of magnitude below `2 ^ 24` is exact. -/
theorem ofInt_exact (i : Int) (h : i.natAbs < 2 ^ 24) : ofInt i = fin (i * 2 ^ 149) := by
  unfold ofInt
  rw [round_exact _ i.natAbs 149 0 h (Nat.zero_le _)]
  · congr 1
    by_cases hi : i < 0
    · have e : (i.natAbs : Int) = -i := by omega
      simp only [hi, decide_True, if_true, Nat.sub_zero, Nat.cast_mul, e]
      push_cast
      ring
    · have e : (i.natAbs : Int) = i := by omega
      simp only [hi, decide_False, Nat.sub_zero, Nat.cast_mul, e]
      push_cast
      simp
  · calc i.natAbs * 2 ^ (149 - 0) < 2 ^ 24 * 2 ^ 149 :=
        Nat.mul_lt_mul_of_pos_right h (Nat.two_pow_pos 149)
      _ < 2 ^ 277 := by norm_num

end F32

/-! ## The message decoders on an 8-byte frame -/

/-- Inside the buffer the byte decoder returns a value. -/
theorem decodeSignedBE16_some (data : List Byte) (off : Int)
    (h0 : 0 ≤ off) (h1 : off + 1 < data.length) :
    ∃ r : Int, decodeSignedBE16 data off = some r := by
  have a0 : off.toNat < data.length := by omega
  have a1 : (off + 1).toNat < data.length := by omega
  exact ⟨_, decodeSignedBE16_of_read data off _ _ (readByte_of_lt data off h0 a0)
    (readByte_of_lt data (off + 1) (by omega) a1)⟩

/-- The state written by `decodeAFMConv1`, field by field, given the three raw
values it decodes. -/
theorem decodeAFMConv1_eq (data : List Byte) (s : CANSignals_t) (t : Nat) (raw0 raw2 raw4 : Int)
    (e0 : decodeSignedBE16 data 0 = some raw0) (e2 : decodeSignedBE16 data 2 = some raw2)
    (e4 : decodeSignedBE16 data 4 = some raw4) :
    decodeAFMConv1 data s t = some
      { afm_freq := F32.add (F32.mul (F32.ofInt raw0) AFM_FREQ_FACTOR) AFM_FREQ_OFFSET
        tha := F32.add (F32.mul (F32.ofInt raw2) THA_FACTOR) THA_OFFSET
        raw_ga := F32.add (F32.mul (F32.ofInt raw4) RAW_GA_FACTOR) RAW_GA_OFFSET
        mcu_temp := s.mcu_temp
        afm_freq_valid := true
        tha_valid := true
        raw_ga_valid := true
        mcu_temp_valid := s.mcu_temp_valid
        last_update_afmconv1 := t % 2 ^ 32
        last_update_afmconv2 := s.last_update_afmconv2 } := by
  simp [decodeAFMConv1, e0, e2, e4]

/-- The state written by `decodeAFMconv2`, field by field, given the raw value
it decodes. -/
theorem decodeAFMconv2_eq (data : List Byte) (s : CANSignals_t) (t : Nat) (raw6 : Int)
    (e6 : decodeSignedBE16 data 6 = some raw6) :
    decodeAFMconv2 data s t = some
      { afm_freq := s.afm_freq
        tha := s.tha
        raw_ga := s.raw_ga
        mcu_temp := F32.add (F32.mul (F32.ofInt raw6) MCUTEMP_FACTOR) MCUTEMP_OFFSET
        afm_freq_valid := s.afm_freq_valid
        tha_valid := s.tha_valid
        raw_ga_valid := s.raw_ga_valid
        mcu_temp_valid := true
        last_update_afmconv1 := s.last_update_afmconv1
        last_update_afmconv2 := t % 2 ^ 32 } := by
  simp [decodeAFMconv2, e6]

/-- Claim C3. Value postcondition of `decodeAFMConv1`: on an 8-byte frame the
three raw values at offsets 0, 2 and 4 are decoded, a state is returned, and in
binary32 arithmetic its `afm_freq` is `raw0 * 1.0f + 0.0f`, its `tha` is
`raw2 * 0.1f + (-30.0f)` and its `raw_ga` is `raw4 * 0.1f + 0.0f`. -/
theorem decodeAFMConv1_values (data : List Byte) (s : CANSignals_t) (t : Nat)
    (h : data.length = 8) :
    ∃ (raw0 raw2 raw4 : Int) (s' : CANSignals_t),
      decodeSignedBE16 data 0 = some raw0 ∧ decodeSignedBE16 data 2 = some raw2 ∧
      decodeSignedBE16 data 4 = some raw4 ∧ decodeAFMConv1 data s t = some s' ∧
      s'.afm_freq = F32.add (F32.mul (F32.ofInt raw0) (F32.lit 10 1)) (F32.lit 0 1) ∧
      s'.tha = F32.add (F32.mul (F32.ofInt raw2) (F32.lit 1 1)) (F32.neg (F32.lit 300 1)) ∧
      s'.raw_ga = F32.add (F32.mul (F32.ofInt raw4) (F32.lit 1 1)) (F32.lit 0 1) := by
  obtain ⟨raw0, e0⟩ := decodeSignedBE16_some data 0 (by omega) (by omega)
  obtain ⟨raw2, e2⟩ := decodeSignedBE16_some data 2 (by omega) (by omega)
  obtain ⟨raw4, e4⟩ := decodeSignedBE16_some data 4 (by omega) (by omega)
  exact ⟨raw0, raw2, raw4, _, e0, e2, e4, decodeAFMConv1_eq data s t raw0 raw2 raw4 e0 e2 e4,
    rfl, rfl, rfl⟩

/-- Witness of claim C3: the frame `07 D0 01 2C 00 64 00 00` decoded into the
initial state at tick 1000. -/
theorem decodeAFMConv1_values_witness :
    ∃ (raw0 raw2 raw4 : Int) (s' : CANSignals_t),
      decodeSignedBE16 frame001 0 = some raw0 ∧ decodeSignedBE16 frame001 2 = some raw2 ∧
      decodeSignedBE16 frame001 4 = some raw4 ∧
      decodeAFMConv1 frame001 (initCANSignals sampleState) 1000 = some s' ∧
      s'.afm_freq = F32.add (F32.mul (F32.ofInt raw0) (F32.lit 10 1)) (F32.lit 0 1) ∧
      s'.tha = F32.add (F32.mul (F32.ofInt raw2) (F32.lit 1 1)) (F32.neg (F32.lit 300 1)) ∧
      s'.raw_ga = F32.add (F32.mul (F32.ofInt raw4) (F32.lit 1 1)) (F32.lit 0 1) :=
  decodeAFMConv1_values frame001 (initCANSignals sampleState) 1000 (by decide)

/-- Claim C4. Flags, timestamps and frame of `decodeAFMConv1`: on an 8-byte
frame, with a 32-bit tick value `t`, the returned state has the three
Message 0x001 validity flags true and `last_update_afmconv1 = t`, while
`mcu_temp`, `mcu_temp_valid` and `last_update_afmconv2` keep their prior values. -/
theorem decodeAFMConv1_flags (data : List Byte) (s : CANSignals_t) (t : Nat)
    (h : data.length = 8) (ht : t < 2 ^ 32) :
    ∃ s' : CANSignals_t, decodeAFMConv1 data s t = some s' ∧
      s'.afm_freq_valid = true ∧ s'.tha_valid = true ∧ s'.raw_ga_valid = true ∧
      s'.last_update_afmconv1 = t ∧
      s'.mcu_temp = s.mcu_temp ∧ s'.mcu_temp_valid = s.mcu_temp_valid ∧
      s'.last_update_afmconv2 = s.last_update_afmconv2 := by
  obtain ⟨raw0, e0⟩ := decodeSignedBE16_some data 0 (by omega) (by omega)
  obtain ⟨raw2, e2⟩ := decodeSignedBE16_some data 2 (by omega) (by omega)
  obtain ⟨raw4, e4⟩ := decodeSignedBE16_some data 4 (by omega) (by omega)
  exact ⟨_, decodeAFMConv1_eq data s t raw0 raw2 raw4 e0 e2 e4, rfl, rfl, rfl,
    Nat.mod_eq_of_lt ht, rfl, rfl, rfl⟩

/-- Witness of claim C4: the frame `07 D0 01 2C 00 64 00 00` decoded into the
initial state, whose flags are all false, at tick 1000. -/
theorem decodeAFMConv1_flags_witness :
    ∃ s' : CANSignals_t, decodeAFMConv1 frame001 (initCANSignals sampleState) 1000 = some s' ∧
      s'.afm_freq_valid = true ∧ s'.tha_valid = true ∧ s'.raw_ga_valid = true ∧
      s'.last_update_afmconv1 = 1000 ∧
      s'.mcu_temp = (initCANSignals sampleState).mcu_temp ∧
      s'.mcu_temp_valid = (initCANSignals sampleState).mcu_temp_valid ∧
      s'.last_update_afmconv2 = (initCANSignals sampleState).last_update_afmconv2 :=
  decodeAFMConv1_flags frame001 (initCANSignals sampleState) 1000 (by decide) (by decide)

/-- Claim C5. Full postcondition of `decodeAFMconv2`: on an 8-byte frame, with a
32-bit tick value `t`, the raw value at offset 6 is decoded, a state is
returned, its `mcu_temp` is `raw6 * 0.1f + (-30.0f)` in binary32 arithmetic, its
`mcu_temp_valid` is true, its `last_update_afmconv2` is `t`, and the seven other
fields keep their prior values. -/
theorem decodeAFMconv2_post (data : List Byte) (s : CANSignals_t) (t : Nat)
    (h : data.length = 8) (ht : t < 2 ^ 32) :
    ∃ (raw6 : Int) (s' : CANSignals_t),
      decodeSignedBE16 data 6 = some raw6 ∧ decodeAFMconv2 data s t = some s' ∧
      s'.mcu_temp = F32.add (F32.mul (F32.ofInt raw6) (F32.lit 1 1)) (F32.neg (F32.lit 300 1)) ∧
      s'.mcu_temp_valid = true ∧ s'.last_update_afmconv2 = t ∧
      s'.afm_freq = s.afm_freq ∧ s'.tha = s.tha ∧ s'.raw_ga = s.raw_ga ∧
      s'.afm_freq_valid = s.afm_freq_valid ∧ s'.tha_valid = s.tha_valid ∧
      s'.raw_ga_valid = s.raw_ga_valid ∧
      s'.last_update_afmconv1 = s.last_update_afmconv1 := by
  obtain ⟨raw6, e6⟩ := decodeSignedBE16_some data 6 (by omega) (by omega)
  exact ⟨raw6, _, e6, decodeAFMconv2_eq data s t raw6 e6, rfl, rfl, Nat.mod_eq_of_lt ht,
    rfl, rfl, rfl, rfl, rfl, rfl, rfl⟩

/-- Witness of claim C5: the frame `00 00 00 00 00 00 03 20` decoded into a
state holding all four signals, at tick 1000. -/
theorem decodeAFMconv2_post_witness :
    ∃ (raw6 : Int) (s' : CANSignals_t),
      decodeSignedBE16 frame002 6 = some raw6 ∧ decodeAFMconv2 frame002 sampleState 1000 = some s' ∧
      s'.mcu_temp = F32.add (F32.mul (F32.ofInt raw6) (F32.lit 1 1)) (F32.neg (F32.lit 300 1)) ∧
      s'.mcu_temp_valid = true ∧ s'.last_update_afmconv2 = 1000 ∧
      s'.afm_freq = sampleState.afm_freq ∧ s'.tha = sampleState.tha ∧
      s'.raw_ga = sampleState.raw_ga ∧
      s'.afm_freq_valid = sampleState.afm_freq_valid ∧ s'.tha_valid = sampleState.tha_valid ∧
      s'.raw_ga_valid = sampleState.raw_ga_valid ∧
      s'.last_update_afmconv1 = sampleState.last_update_afmconv1 :=
  decodeAFMconv2_post frame002 sampleState 1000 (by decide) (by decide)

/-! ## The initializer -/

/-- The state written by `initCANSignals`, field by field. -/
theorem initCANSignals_eq (s : CANSignals_t) :
    initCANSignals s =
      { afm_freq := F32.fin 0
        tha := F32.fin 0
        raw_ga := F32.fin 0
        mcu_temp := F32.fin 0
        afm_freq_valid := false
        tha_valid := false
        raw_ga_valid := false
        mcu_temp_valid := false
        last_update_afmconv1 := 0
        last_update_afmconv2 := 0 } := by
  simp [initCANSignals, lit_zero]

/-- Claim C6. Postcondition of `initCANSignals`: the four value fields are the
binary32 zero, the four validity flags are false and both timestamps are 0. -/
theorem initCANSignals_post (s : CANSignals_t) :
    (initCANSignals s).afm_freq = F32.fin 0 ∧ (initCANSignals s).tha = F32.fin 0 ∧
    (initCANSignals s).raw_ga = F32.fin 0 ∧ (initCANSignals s).mcu_temp = F32.fin 0 ∧
    (initCANSignals s).afm_freq_valid = false ∧ (initCANSignals s).tha_valid = false ∧
    (initCANSignals s).raw_ga_valid = false ∧ (initCANSignals s).mcu_temp_valid = false ∧
    (initCANSignals s).last_update_afmconv1 = 0 ∧
    (initCANSignals s).last_update_afmconv2 = 0 := by
  rw [initCANSignals_eq]
  exact ⟨rfl, rfl, rfl, rfl, rfl, rfl, rfl, rfl, rfl, rfl⟩

/-- Claim C7. `initCANSignals` is idempotent and is a reset: applying it twice
is applying it once, and its result is the same from every two prior states. -/
theorem initCANSignals_idempotent_reset :
    (∀ s : CANSignals_t, initCANSignals (initCANSignals s) = initCANSignals s) ∧
    (∀ s1 s2 : CANSignals_t, initCANSignals s1 = initCANSignals s2) := by
  constructor
  · intro s
    rw [initCANSignals_eq, initCANSignals_eq]
  · intro s1 s2
    rw [initCANSignals_eq, initCANSignals_eq]

/-! ## Concrete scenarios -/

/-- The rational value of the binary32 number `i`, for an integer `i`. -/
theorem toRat_fin_int (i : Int) : F32.toRat (F32.fin (i * 2 ^ 149)) = some (i : ℚ) := by
  show some (((i * 2 ^ 149 : Int) : ℚ) / 2 ^ 149) = some (i : ℚ)
  congr 1
  rw [Int.cast_mul, Int.cast_pow, Int.cast_ofNat, mul_div_assoc,
    div_self (pow_ne_zero 149 two_ne_zero), mul_one]

/-- In binary32, `2000 * 1.0f + 0.0f` is 2000. -/
theorem scale_freq_2000 :
    (F32.add (F32.mul (F32.ofInt 2000) AFM_FREQ_FACTOR) AFM_FREQ_OFFSET).toRat = some 2000 := by
  have e : F32.add (F32.mul (F32.ofInt 2000) AFM_FREQ_FACTOR) AFM_FREQ_OFFSET =
      F32.fin (2000 * 2 ^ 149) := by decide
  rw [e, toRat_fin_int]
  norm_num

/-- In binary32, `300 * 0.1f + (-30.0f)` is 0: the product rounds to 30. -/
theorem scale_tha_300 :
    (F32.add (F32.mul (F32.ofInt 300) THA_FACTOR) THA_OFFSET).toRat = some 0 := by
  have e : F32.add (F32.mul (F32.ofInt 300) THA_FACTOR) THA_OFFSET =
      F32.fin (0 * 2 ^ 149) := by decide
  rw [e, toRat_fin_int]
  norm_num

/-- In binary32, `100 * 0.1f + 0.0f` is 10: the product rounds to 10. -/
theorem scale_ga_100 :
    (F32.add (F32.mul (F32.ofInt 100) RAW_GA_FACTOR) RAW_GA_OFFSET).toRat = some 10 := by
  have e : F32.add (F32.mul (F32.ofInt 100) RAW_GA_FACTOR) RAW_GA_OFFSET =
      F32.fin (10 * 2 ^ 149) := by decide
  rw [e, toRat_fin_int]
  norm_num

/-- In binary32, `800 * 0.1f + (-30.0f)` is 50: the product rounds to 80. -/
theorem scale_mcu_800 :
    (F32.add (F32.mul (F32.ofInt 800) MCUTEMP_FACTOR) MCUTEMP_OFFSET).toRat = some 50 := by
  have e : F32.add (F32.mul (F32.ofInt 800) MCUTEMP_FACTOR) MCUTEMP_OFFSET =
      F32.fin (50 * 2 ^ 149) := by decide
  rw [e, toRat_fin_int]
  norm_num

/-- In binary32, `-200 * 0.1f + (-30.0f)` is -50: the product rounds to -20. -/
theorem scale_tha_neg200 :
    (F32.add (F32.mul (F32.ofInt (-200)) THA_FACTOR) THA_OFFSET).toRat = some (-50) := by
  have e : F32.add (F32.mul (F32.ofInt (-200)) THA_FACTOR) THA_OFFSET =
      F32.fin (-50 * 2 ^ 149) := by decide
  rw [e, toRat_fin_int]
  norm_num

/-- In binary32, `-200 * 0.1f + (-30.0f)` is -50 for the MCU temperature too. -/
theorem scale_mcu_neg200 :
    (F32.add (F32.mul (F32.ofInt (-200)) MCUTEMP_FACTOR) MCUTEMP_OFFSET).toRat = some (-50) :=
  scale_tha_neg200

/-- Claim C8. Scenario for Message 0x001: the frame `07 D0 01 2C 00 64 00 00`
has raw frequency 2000, raw temperature 300 and raw flow 100, and from every
prior state and tick `decodeAFMConv1` returns a state whose `afm_freq` is
exactly 2000, whose `tha` is exactly 0 and whose `raw_ga` is exactly 10. -/
theorem scenario_message_001 (s : CANSignals_t) (t : Nat) :
    decodeSignedBE16 [0x07, 0xD0, 0x01, 0x2C, 0x00, 0x64, 0x00, 0x00] 0 = some 2000 ∧
    decodeSignedBE16 [0x07, 0xD0, 0x01, 0x2C, 0x00, 0x64, 0x00, 0x00] 2 = some 300 ∧
    decodeSignedBE16 [0x07, 0xD0, 0x01, 0x2C, 0x00, 0x64, 0x00, 0x00] 4 = some 100 ∧
    ∃ s' : CANSignals_t,
      decodeAFMConv1 [0x07, 0xD0, 0x01, 0x2C, 0x00, 0x64, 0x00, 0x00] s t = some s' ∧
      s'.afm_freq.toRat = some 2000 ∧ s'.tha.toRat = some 0 ∧ s'.raw_ga.toRat = some 10 := by
  refine ⟨by decide, by decide, by decide, _,
    decodeAFMConv1_eq _ s t 2000 300 100 (by decide) (by decide) (by decide), ?_, ?_, ?_⟩
  · exact scale_freq_2000
  · exact scale_tha_300
  · exact scale_ga_100

/-- Claim C9. Scenario for Message 0x002: the frame `00 00 00 00 00 00 03 20`
has raw MCU temperature 800, and from every prior state and tick
`decodeAFMconv2` returns a state whose `mcu_temp` is exactly 50. -/
theorem scenario_message_002 (s : CANSignals_t) (t : Nat) :
    decodeSignedBE16 [0x00, 0x00, 0x00, 0x00, 0x00, 0x00, 0x03, 0x20] 6 = some 800 ∧
    ∃ s' : CANSignals_t,
      decodeAFMconv2 [0x00, 0x00, 0x00, 0x00, 0x00, 0x00, 0x03, 0x20] s t = some s' ∧
      s'.mcu_temp.toRat = some 50 := by
  exact ⟨by decide, _, decodeAFMconv2_eq _ s t 800 (by decide), scale_mcu_800⟩

/-- Claim C10. Negative-value scenario: the byte pair `FF 38` decodes to -200,
every Message 0x001 frame carrying it in bytes 2..3 stores a `tha` of exactly
-50, and every Message 0x002 frame carrying it in bytes 6..7 stores an
`mcu_temp` of exactly -50. -/
theorem scenario_negative (b0 b1 b2 b3 b4 b5 b6 b7 : Byte) (s : CANSignals_t) (t : Nat) :
    decodeSignedBE16 [0xFF, 0x38] 0 = some (-200) ∧
    (∃ s' : CANSignals_t,
      decodeAFMConv1 [b0, b1, 0xFF, 0x38, b4, b5, b6, b7] s t = some s' ∧
      s'.tha.toRat = some (-50)) ∧
    (∃ s' : CANSignals_t,
      decodeAFMconv2 [b0, b1, b2, b3, b4, b5, 0xFF, 0x38] s t = some s' ∧
      s'.mcu_temp.toRat = some (-50)) := by
  have e2 : decodeSignedBE16 [b0, b1, 0xFF, 0x38, b4, b5, b6, b7] 2 = some (-200) :=
    (decodeSignedBE16_of_read [b0, b1, 0xFF, 0x38, b4, b5, b6, b7] 2 0xFF 0x38 rfl rfl).trans
      (by decide)
  have e6 : decodeSignedBE16 [b0, b1, b2, b3, b4, b5, 0xFF, 0x38] 6 = some (-200) :=
    (decodeSignedBE16_of_read [b0, b1, b2, b3, b4, b5, 0xFF, 0x38] 6 0xFF 0x38 rfl rfl).trans
      (by decide)
  obtain ⟨raw0, e0⟩ := decodeSignedBE16_some [b0, b1, 0xFF, 0x38, b4, b5, b6, b7] 0
    (by simp) (by simp)
  obtain ⟨raw4, e4⟩ := decodeSignedBE16_some [b0, b1, 0xFF, 0x38, b4, b5, b6, b7] 4
    (by simp) (by simp)
  exact ⟨by decide, ⟨_, decodeAFMConv1_eq _ s t raw0 (-200) raw4 e0 e2 e4, scale_tha_neg200⟩,
    ⟨_, decodeAFMconv2_eq _ s t (-200) e6, scale_mcu_neg200⟩⟩

/-! ## Absence of out-of-bounds reads -/

/-- A byte is read exactly at the indices inside the buffer. -/
theorem readByte_isSome (data : List Byte) (i : Int) :
    (readByte data i).isSome = true ↔ 0 ≤ i ∧ i < data.length := by
  unfold readByte
  split_ifs with h
  · rw [← Option.ne_none_iff_isSome, ne_eq, List.getElem?_eq_none_iff]
    omega
  · simp [h]

/-- The byte decoder returns a value exactly when both of its reads do. -/
theorem decodeSignedBE16_isSome (data : List Byte) (off : Int) :
    (decodeSignedBE16 data off).isSome = true ↔ 0 ≤ off ∧ off + 1 < data.length := by
  constructor
  · intro h
    have h0 : (readByte data off).isSome = true := by
      unfold decodeSignedBE16 at h
      cases e : readByte data off <;> simp [e] at h ⊢
    have h1 : (readByte data (off + 1)).isSome = true := by
      unfold decodeSignedBE16 at h
      cases e0 : readByte data off <;> cases e1 : readByte data (off + 1) <;>
        simp [e0, e1] at h ⊢
    rw [readByte_isSome] at h0 h1
    omega
  · rintro ⟨h0, h1⟩
    obtain ⟨r, hr⟩ := decodeSignedBE16_some data off h0 h1
    simp [hr]

/-- Claim C11. No fallible operation on well-formed frames: the byte decoder
returns a value exactly when `0 ≤ off` and `off + 1` is inside the buffer; on a
frame of exactly 8 bytes the four reads the message decoders make, at offsets
0, 2, 4 and 6, all return a value, and both decoders return a state. -/
theorem no_out_of_bounds (data : List Byte) (off : Int) (frame : List Byte)
    (s : CANSignals_t) (t : Nat) (h : frame.length = 8) :
    ((decodeSignedBE16 data off).isSome = true ↔ 0 ≤ off ∧ off + 1 < data.length) ∧
    (decodeSignedBE16 frame 0).isSome = true ∧ (decodeSignedBE16 frame 2).isSome = true ∧
    (decodeSignedBE16 frame 4).isSome = true ∧ (decodeSignedBE16 frame 6).isSome = true ∧
    (decodeAFMConv1 frame s t).isSome = true ∧ (decodeAFMconv2 frame s t).isSome = true := by
  obtain ⟨raw0, e0⟩ := decodeSignedBE16_some frame 0 (by omega) (by omega)
  obtain ⟨raw2, e2⟩ := decodeSignedBE16_some frame 2 (by omega) (by omega)
  obtain ⟨raw4, e4⟩ := decodeSignedBE16_some frame 4 (by omega) (by omega)
  obtain ⟨raw6, e6⟩ := decodeSignedBE16_some frame 6 (by omega) (by omega)
  refine ⟨decodeSignedBE16_isSome data off, ?_, ?_, ?_, ?_, ?_, ?_⟩
  · rw [e0]; rfl
  · rw [e2]; rfl
  · rw [e4]; rfl
  · rw [e6]; rfl
  · rw [decodeAFMConv1_eq frame s t raw0 raw2 raw4 e0 e2 e4]; rfl
  · rw [decodeAFMconv2_eq frame s t raw6 e6]; rfl

/-- Witness of claim C11: a one-byte buffer read at offset 0, where the second
read is outside, and the frame `07 D0 01 2C 00 64 00 00`. -/
theorem no_out_of_bounds_witness :
    ((decodeSignedBE16 [0x12] 0).isSome = true ↔
      (0 : Int) ≤ 0 ∧ (0 : Int) + 1 < [(0x12 : Byte)].length) ∧
    (decodeSignedBE16 frame001 0).isSome = true ∧ (decodeSignedBE16 frame001 2).isSome = true ∧
    (decodeSignedBE16 frame001 4).isSome = true ∧ (decodeSignedBE16 frame001 6).isSome = true ∧
    (decodeAFMConv1 frame001 sampleState 1000).isSome = true ∧
    (decodeAFMconv2 frame001 sampleState 1000).isSome = true :=
  no_out_of_bounds [0x12] 0 frame001 sampleState 1000 (by decide)

/-! ## Sequences of decoder calls -/

/-- Every state returned by `decodeAFMConv1` has the shape of `decodeAFMConv1_eq`. -/
theorem decodeAFMConv1_shape (data : List Byte) (s s' : CANSignals_t) (t : Nat)
    (h : decodeAFMConv1 data s t = some s') :
    ∃ raw0 raw2 raw4 : Int, decodeSignedBE16 data 0 = some raw0 ∧
      decodeSignedBE16 data 2 = some raw2 ∧ decodeSignedBE16 data 4 = some raw4 ∧
      s' = { afm_freq := F32.add (F32.mul (F32.ofInt raw0) AFM_FREQ_FACTOR) AFM_FREQ_OFFSET
             tha := F32.add (F32.mul (F32.ofInt raw2) THA_FACTOR) THA_OFFSET
             raw_ga := F32.add (F32.mul (F32.ofInt raw4) RAW_GA_FACTOR) RAW_GA_OFFSET
             mcu_temp := s.mcu_temp
             afm_freq_valid := true
             tha_valid := true
             raw_ga_valid := true
             mcu_temp_valid := s.mcu_temp_valid
             last_update_afmconv1 := t % 2 ^ 32
             last_update_afmconv2 := s.last_update_afmconv2 } := by
  cases e0 : decodeSignedBE16 data 0 with
  | none => simp [decodeAFMConv1, e0] at h
  | some raw0 =>
    cases e2 : decodeSignedBE16 data 2 with
    | none => simp [decodeAFMConv1, e0, e2] at h
    | some raw2 =>
      cases e4 : decodeSignedBE16 data 4 with
      | none => simp [decodeAFMConv1, e0, e2, e4] at h
      | some raw4 =>
        rw [decodeAFMConv1_eq data s t raw0 raw2 raw4 e0 e2 e4] at h
        exact ⟨raw0, raw2, raw4, rfl, rfl, rfl, (Option.some.inj h).symm⟩

/-- Every state returned by `decodeAFMconv2` has the shape of `decodeAFMconv2_eq`. -/
theorem decodeAFMconv2_shape (data : List Byte) (s s' : CANSignals_t) (t : Nat)
    (h : decodeAFMconv2 data s t = some s') :
    ∃ raw6 : Int, decodeSignedBE16 data 6 = some raw6 ∧
      s' = { afm_freq := s.afm_freq
             tha := s.tha
             raw_ga := s.raw_ga
             mcu_temp := F32.add (F32.mul (F32.ofInt raw6) MCUTEMP_FACTOR) MCUTEMP_OFFSET
             afm_freq_valid := s.afm_freq_valid
             tha_valid := s.tha_valid
             raw_ga_valid := s.raw_ga_valid
             mcu_temp_valid := true
             last_update_afmconv1 := s.last_update_afmconv1
             last_update_afmconv2 := t % 2 ^ 32 } := by
  cases e6 : decodeSignedBE16 data 6 with
  | none => simp [decodeAFMconv2, e6] at h
  | some raw6 =>
    rw [decodeAFMconv2_eq data s t raw6 e6] at h
    exact ⟨raw6, rfl, (Option.some.inj h).symm⟩

/-- A call with an 8-byte frame returns a state. -/
theorem Op.apply_some (op : Op) (s : CANSignals_t) (hok : op.frameOk = true) :
    ∃ s' : CANSignals_t, op.apply s = some s' := by
  cases op with
  | conv1 data t =>
    have h : data.length = 8 := by simpa [Op.frameOk] using hok
    obtain ⟨raw0, e0⟩ := decodeSignedBE16_some data 0 (by omega) (by omega)
    obtain ⟨raw2, e2⟩ := decodeSignedBE16_some data 2 (by omega) (by omega)
    obtain ⟨raw4, e4⟩ := decodeSignedBE16_some data 4 (by omega) (by omega)
    exact ⟨_, decodeAFMConv1_eq data s t raw0 raw2 raw4 e0 e2 e4⟩
  | conv2 data t =>
    have h : data.length = 8 := by simpa [Op.frameOk] using hok
    obtain ⟨raw6, e6⟩ := decodeSignedBE16_some data 6 (by omega) (by omega)
    exact ⟨_, decodeAFMconv2_eq data s t raw6 e6⟩
  | reset => exact ⟨_, rfl⟩

/-- A sequence of calls with 8-byte frames returns a state. -/
theorem run_some (ops : List Op) :
    ∀ s : CANSignals_t, ops.all Op.frameOk = true → ∃ s' : CANSignals_t, run ops s = some s' := by
  induction ops with
  | nil => intro s _; exact ⟨s, rfl⟩
  | cons op ops ih =>
    intro s hok
    rw [List.all_cons, Bool.and_eq_true] at hok
    obtain ⟨s1, h1⟩ := Op.apply_some op s hok.1
    obtain ⟨s', h'⟩ := ih s1 hok.2
    exact ⟨s', by simp [run, h1, h']⟩

/-- One decoder call keeps every validity flag that is true. -/
theorem Op.apply_flags (op : Op) (s s' : CANSignals_t) (hdec : op.isDecode = true)
    (h : op.apply s = some s') :
    (s.afm_freq_valid = true → s'.afm_freq_valid = true) ∧
    (s.tha_valid = true → s'.tha_valid = true) ∧
    (s.raw_ga_valid = true → s'.raw_ga_valid = true) ∧
    (s.mcu_temp_valid = true → s'.mcu_temp_valid = true) := by
  cases op with
  | conv1 data t =>
    obtain ⟨raw0, raw2, raw4, -, -, -, rfl⟩ := decodeAFMConv1_shape data s s' t h
    exact ⟨fun _ => rfl, fun _ => rfl, fun _ => rfl, fun hv => hv⟩
  | conv2 data t =>
    obtain ⟨raw6, -, rfl⟩ := decodeAFMconv2_shape data s s' t h
    exact ⟨fun hv => hv, fun hv => hv, fun hv => hv, fun _ => rfl⟩
  | reset => simp [Op.isDecode] at hdec

/-- A sequence of decoder calls keeps every validity flag that is true. -/
theorem run_flags (ops : List Op) :
    ∀ s s' : CANSignals_t, ops.all Op.isDecode = true → run ops s = some s' →
      (s.afm_freq_valid = true → s'.afm_freq_valid = true) ∧
      (s.tha_valid = true → s'.tha_valid = true) ∧
      (s.raw_ga_valid = true → s'.raw_ga_valid = true) ∧
      (s.mcu_temp_valid = true → s'.mcu_temp_valid = true) := by
  induction ops with
  | nil =>
    intro s s' _ h
    obtain rfl : s = s' := Option.some.inj h
    exact ⟨id, id, id, id⟩
  | cons op ops ih =>
    intro s s' hdec h
    rw [List.all_cons, Bool.and_eq_true] at hdec
    cases h1 : op.apply s with
    | none => simp [run, h1] at h
    | some s1 =>
      have h2 : run ops s1 = some s' := by simpa [run, h1] using h
      have f1 := Op.apply_flags op s s1 hdec.1 h1
      have f2 := ih s1 s' hdec.2 h2
      exact ⟨fun hv => f2.1 (f1.1 hv), fun hv => f2.2.1 (f1.2.1 hv),
        fun hv => f2.2.2.1 (f1.2.2.1 hv), fun hv => f2.2.2.2 (f1.2.2.2 hv)⟩

/-- Claim C12. Validity flags are never reset except by initialization: every
finite sequence of decoder calls with 8-byte frames and arbitrary ticks returns
a state, in which each of the four flags that was true before is still true;
the initializer, called on that state, makes all four flags false. -/
theorem flags_never_reset_by_decoders (ops : List Op) (s : CANSignals_t)
    (hdec : ops.all Op.isDecode = true) (hok : ops.all Op.frameOk = true) :
    ∃ s' : CANSignals_t, run ops s = some s' ∧
      (s.afm_freq_valid = true → s'.afm_freq_valid = true) ∧
      (s.tha_valid = true → s'.tha_valid = true) ∧
      (s.raw_ga_valid = true → s'.raw_ga_valid = true) ∧
      (s.mcu_temp_valid = true → s'.mcu_temp_valid = true) ∧
      (initCANSignals s').afm_freq_valid = false ∧ (initCANSignals s').tha_valid = false ∧
      (initCANSignals s').raw_ga_valid = false ∧ (initCANSignals s').mcu_temp_valid = false := by
  obtain ⟨s', h⟩ := run_some ops s hok
  obtain ⟨f1, f2, f3, f4⟩ := run_flags ops s s' hdec h
  refine ⟨s', h, f1, f2, f3, f4, ?_⟩
  rw [initCANSignals_eq]
  exact ⟨rfl, rfl, rfl, rfl⟩

/-- Witness of claim C12: three decodes from a state whose four flags are true. -/
theorem flags_never_reset_by_decoders_witness :
    ∃ s' : CANSignals_t,
      run [Op.conv1 frame001 1000, Op.conv2 frame002 2000, Op.conv1 frameZero 3000]
        sampleState = some s' ∧
      (sampleState.afm_freq_valid = true → s'.afm_freq_valid = true) ∧
      (sampleState.tha_valid = true → s'.tha_valid = true) ∧
      (sampleState.raw_ga_valid = true → s'.raw_ga_valid = true) ∧
      (sampleState.mcu_temp_valid = true → s'.mcu_temp_valid = true) ∧
      (initCANSignals s').afm_freq_valid = false ∧ (initCANSignals s').tha_valid = false ∧
      (initCANSignals s').raw_ga_valid = false ∧ (initCANSignals s').mcu_temp_valid = false :=
  flags_never_reset_by_decoders
    [Op.conv1 frame001 1000, Op.conv2 frame002 2000, Op.conv1 frameZero 3000] sampleState
    (by decide) (by decide)

/-! ## Skipped fields -/

/-- A read at a natural index is the list lookup at that index. -/
theorem readByte_natCast (data : List Byte) (i : Nat) : readByte data (i : Int) = data[i]? := by
  simp [readByte]

/-- The byte decoder at a natural offset depends on the two bytes there only. -/
theorem decodeSignedBE16_congr (a b : List Byte) (i : Nat)
    (h0 : a[i]? = b[i]?) (h1 : a[i + 1]? = b[i + 1]?) :
    decodeSignedBE16 a (i : Int) = decodeSignedBE16 b (i : Int) := by
  have e0 : readByte a (i : Int) = readByte b (i : Int) := by
    rw [readByte_natCast, readByte_natCast, h0]
  have e1 : readByte a ((i : Int) + 1) = readByte b ((i : Int) + 1) := by
    have c : ((i : Int) + 1) = ((i + 1 : Nat) : Int) := by push_cast; rfl
    rw [c, readByte_natCast, readByte_natCast, h1]
  unfold decodeSignedBE16
  rw [e0, e1]

/-- Claim C13. Skipped frame fields do not influence the result: from every
prior state and tick, two 8-byte frames that agree on bytes 0..5 give the same
state after `decodeAFMConv1`, and two 8-byte frames that agree on bytes 6..7
give the same state after `decodeAFMconv2`. -/
theorem skipped_fields_ignored (a b : List Byte) (s : CANSignals_t) (t : Nat)
    (ha : a.length = 8) (_hb : b.length = 8) :
    ((∀ i : Nat, i < 6 → a[i]? = b[i]?) →
      ∃ s' : CANSignals_t, decodeAFMConv1 a s t = some s' ∧ decodeAFMConv1 b s t = some s') ∧
    ((∀ i : Nat, 6 ≤ i → i < 8 → a[i]? = b[i]?) →
      ∃ s' : CANSignals_t, decodeAFMconv2 a s t = some s' ∧ decodeAFMconv2 b s t = some s') := by
  constructor
  · intro h
    obtain ⟨raw0, e0⟩ := decodeSignedBE16_some a 0 (by omega) (by omega)
    obtain ⟨raw2, e2⟩ := decodeSignedBE16_some a 2 (by omega) (by omega)
    obtain ⟨raw4, e4⟩ := decodeSignedBE16_some a 4 (by omega) (by omega)
    have c0 := decodeSignedBE16_congr a b 0 (h 0 (by omega)) (h 1 (by omega))
    have c2 := decodeSignedBE16_congr a b 2 (h 2 (by omega)) (h 3 (by omega))
    have c4 := decodeSignedBE16_congr a b 4 (h 4 (by omega)) (h 5 (by omega))
    exact ⟨_, decodeAFMConv1_eq a s t raw0 raw2 raw4 e0 e2 e4,
      decodeAFMConv1_eq b s t raw0 raw2 raw4 (c0 ▸ e0) (c2 ▸ e2) (c4 ▸ e4)⟩
  · intro h
    obtain ⟨raw6, e6⟩ := decodeSignedBE16_some a 6 (by omega) (by omega)
    have c6 := decodeSignedBE16_congr a b 6 (h 6 (by omega) (by omega))
      (h 7 (by omega) (by omega))
    exact ⟨_, decodeAFMconv2_eq a s t raw6 e6, decodeAFMconv2_eq b s t raw6 (c6 ▸ e6)⟩

/-- Witness of claim C13: two Message 0x001 frames that differ in bytes 6..7
only, and two Message 0x002 frames that differ in bytes 0..5 only. -/
theorem skipped_fields_ignored_witness :
    (∃ s' : CANSignals_t,
      decodeAFMConv1 frame001 sampleState 1000 = some s' ∧
      decodeAFMConv1 [0x07, 0xD0, 0x01, 0x2C, 0x00, 0x64, 0xAB, 0xCD] sampleState 1000 =
        some s') ∧
    (∃ s' : CANSignals_t,
      decodeAFMconv2 frame002 sampleState 1000 = some s' ∧
      decodeAFMconv2 [0x11, 0x22, 0x33, 0x44, 0x55, 0x66, 0x03, 0x20] sampleState 1000 =
        some s') :=
  ⟨(skipped_fields_ignored frame001 [0x07, 0xD0, 0x01, 0x2C, 0x00, 0x64, 0xAB, 0xCD]
      sampleState 1000 (by decide) (by decide)).1 (by decide),
   (skipped_fields_ignored frame002 [0x11, 0x22, 0x33, 0x44, 0x55, 0x66, 0x03, 0x20]
      sampleState 1000 (by decide) (by decide)).2 (by decide)⟩

/-! ## Declared ranges -/

/-- The declared lower bound of the frequency is the number 1500. -/
theorem afm_freq_min_value : AFM_FREQ_MIN.toRat = some 1500 := by
  have e : AFM_FREQ_MIN = F32.fin (1500 * 2 ^ 149) := by decide
  rw [e, toRat_fin_int]
  norm_num

/-- The declared upper bound of the frequency is the number 20000. -/
theorem afm_freq_max_value : AFM_FREQ_MAX.toRat = some 20000 := by
  have e : AFM_FREQ_MAX = F32.fin (20000 * 2 ^ 149) := by decide
  rw [e, toRat_fin_int]
  norm_num

/-- In binary32, `0 * 1.0f + 0.0f` is 0. -/
theorem scale_freq_0 :
    (F32.add (F32.mul (F32.ofInt 0) AFM_FREQ_FACTOR) AFM_FREQ_OFFSET).toRat = some 0 := by
  have e : F32.add (F32.mul (F32.ofInt 0) AFM_FREQ_FACTOR) AFM_FREQ_OFFSET =
      F32.fin (0 * 2 ^ 149) := by decide
  rw [e, toRat_fin_int]
  norm_num

/-- Claim C14. The declared ranges are not enforced: from every prior state and
tick the all-zero frame makes `decodeAFMConv1` store the frequency 0, below the
declared range `[1500, 20000]`, with `afm_freq_valid` true; and on every 8-byte
frame the decoders set their validity flags to true, with no condition on the
decoded values. -/
theorem ranges_not_enforced (data : List Byte) (s : CANSignals_t) (t : Nat)
    (h : data.length = 8) :
    (∃ (s' : CANSignals_t) (v lo hi : ℚ),
      decodeAFMConv1 [0x00, 0x00, 0x00, 0x00, 0x00, 0x00, 0x00, 0x00] s t = some s' ∧
      s'.afm_freq.toRat = some v ∧ v = 0 ∧
      AFM_FREQ_MIN.toRat = some lo ∧ AFM_FREQ_MAX.toRat = some hi ∧
      lo = 1500 ∧ hi = 20000 ∧ ¬ (lo ≤ v ∧ v ≤ hi) ∧ s'.afm_freq_valid = true) ∧
    (∃ s' : CANSignals_t, decodeAFMConv1 data s t = some s' ∧
      s'.afm_freq_valid = true ∧ s'.tha_valid = true ∧ s'.raw_ga_valid = true) ∧
    (∃ s' : CANSignals_t, decodeAFMconv2 data s t = some s' ∧ s'.mcu_temp_valid = true) := by
  obtain ⟨raw0, e0⟩ := decodeSignedBE16_some data 0 (by omega) (by omega)
  obtain ⟨raw2, e2⟩ := decodeSignedBE16_some data 2 (by omega) (by omega)
  obtain ⟨raw4, e4⟩ := decodeSignedBE16_some data 4 (by omega) (by omega)
  obtain ⟨raw6, e6⟩ := decodeSignedBE16_some data 6 (by omega) (by omega)
  refine ⟨⟨_, 0, 1500, 20000,
    decodeAFMConv1_eq _ s t 0 0 0 (by decide) (by decide) (by decide), scale_freq_0, rfl,
    afm_freq_min_value, afm_freq_max_value, rfl, rfl, by norm_num, rfl⟩,
    ⟨_, decodeAFMConv1_eq data s t raw0 raw2 raw4 e0 e2 e4, rfl, rfl, rfl⟩,
    ⟨_, decodeAFMconv2_eq data s t raw6 e6, rfl⟩⟩

/-- Witness of claim C14: the general part at the frame `07 D0 01 2C 00 64 00 00`,
whose frequency 2000 is inside the declared range. -/
theorem ranges_not_enforced_witness :
    (∃ (s' : CANSignals_t) (v lo hi : ℚ),
      decodeAFMConv1 [0x00, 0x00, 0x00, 0x00, 0x00, 0x00, 0x00, 0x00]
        (initCANSignals sampleState) 1000 = some s' ∧
      s'.afm_freq.toRat = some v ∧ v = 0 ∧
      AFM_FREQ_MIN.toRat = some lo ∧ AFM_FREQ_MAX.toRat = some hi ∧
      lo = 1500 ∧ hi = 20000 ∧ ¬ (lo ≤ v ∧ v ≤ hi) ∧ s'.afm_freq_valid = true) ∧
    (∃ s' : CANSignals_t, decodeAFMConv1 frame001 (initCANSignals sampleState) 1000 = some s' ∧
      s'.afm_freq_valid = true ∧ s'.tha_valid = true ∧ s'.raw_ga_valid = true) ∧
    (∃ s' : CANSignals_t, decodeAFMconv2 frame001 (initCANSignals sampleState) 1000 = some s' ∧
      s'.mcu_temp_valid = true) :=
  ranges_not_enforced frame001 (initCANSignals sampleState) 1000 (by decide)

/-! ## The reachable-state invariant -/

/-- The initial state is consistent. -/
theorem consistent_init (s : CANSignals_t) : Consistent (initCANSignals s) := by
  rw [initCANSignals_eq]
  exact ⟨⟨rfl, rfl⟩, ⟨fun _ => rfl, fun _ => rfl, fun _ => rfl, fun _ => rfl⟩,
    fun h => absurd rfl h, fun h => absurd rfl h⟩

/-- Every call keeps the state consistent. -/
theorem consistent_apply (op : Op) (s s' : CANSignals_t) (hs : Consistent s)
    (h : op.apply s = some s') : Consistent s' := by
  obtain ⟨e, ⟨v1, v2, v3, v4⟩, u1, u2⟩ := hs
  cases op with
  | conv1 data t =>
    obtain ⟨raw0, raw2, raw4, -, -, -, rfl⟩ := decodeAFMConv1_shape data s s' t h
    exact ⟨⟨rfl, rfl⟩,
      ⟨fun c => Bool.noConfusion c, fun c => Bool.noConfusion c, fun c => Bool.noConfusion c, v4⟩,
      fun _ => ⟨rfl, rfl, rfl⟩, u2⟩
  | conv2 data t =>
    obtain ⟨raw6, -, rfl⟩ := decodeAFMconv2_shape data s s' t h
    exact ⟨e, ⟨v1, v2, v3, fun c => Bool.noConfusion c⟩, u1, fun _ => rfl⟩
  | reset =>
    obtain rfl : initCANSignals s = s' := Option.some.inj h
    exact consistent_init s

/-- Every sequence of calls keeps the state consistent. -/
theorem consistent_run (ops : List Op) :
    ∀ s s' : CANSignals_t, Consistent s → run ops s = some s' → Consistent s' := by
  induction ops with
  | nil =>
    intro s s' hs h
    obtain rfl : s = s' := Option.some.inj h
    exact hs
  | cons op ops ih =>
    intro s s' hs h
    cases h1 : op.apply s with
    | none => simp [run, h1] at h
    | some s1 =>
      have h2 : run ops s1 = some s' := by simpa [run, h1] using h
      exact ih s1 s' (consistent_apply op s s1 hs h1) h2

/-- Claim C15. Reachable-state invariant: every finite sequence of decoder and
initializer calls with 8-byte frames, made after `initCANSignals`, returns a
state in which (i) the three Message 0x001 flags are equal, (ii) a signal whose
flag is false has the value zero, and (iii) a non-zero `last_update_afmconv1`
means the three Message 0x001 flags are true and a non-zero
`last_update_afmconv2` means `mcu_temp_valid` is true. -/
theorem reachable_invariant (ops : List Op) (s0 : CANSignals_t)
    (hok : ops.all Op.frameOk = true) :
    ∃ s : CANSignals_t, run ops (initCANSignals s0) = some s ∧
      (s.afm_freq_valid = s.tha_valid ∧ s.tha_valid = s.raw_ga_valid) ∧
      ((s.afm_freq_valid = false → s.afm_freq = F32.fin 0) ∧
       (s.tha_valid = false → s.tha = F32.fin 0) ∧
       (s.raw_ga_valid = false → s.raw_ga = F32.fin 0) ∧
       (s.mcu_temp_valid = false → s.mcu_temp = F32.fin 0)) ∧
      (s.last_update_afmconv1 ≠ 0 →
        s.afm_freq_valid = true ∧ s.tha_valid = true ∧ s.raw_ga_valid = true) ∧
      (s.last_update_afmconv2 ≠ 0 → s.mcu_temp_valid = true) := by
  obtain ⟨s, h⟩ := run_some ops (initCANSignals s0) hok
  exact ⟨s, h, consistent_run ops (initCANSignals s0) s (consistent_init s0) h⟩

/-- Witness of claim C15: a Message 0x002 decode, a reset and a Message 0x001
decode after the initializer. -/
theorem reachable_invariant_witness :
    ∃ s : CANSignals_t,
      run [Op.conv2 frame002 2000, Op.reset, Op.conv1 frame001 1000]
        (initCANSignals sampleState) = some s ∧
      (s.afm_freq_valid = s.tha_valid ∧ s.tha_valid = s.raw_ga_valid) ∧
      ((s.afm_freq_valid = false → s.afm_freq = F32.fin 0) ∧
       (s.tha_valid = false → s.tha = F32.fin 0) ∧
       (s.raw_ga_valid = false → s.raw_ga = F32.fin 0) ∧
       (s.mcu_temp_valid = false → s.mcu_temp = F32.fin 0)) ∧
      (s.last_update_afmconv1 ≠ 0 →
        s.afm_freq_valid = true ∧ s.tha_valid = true ∧ s.raw_ga_valid = true) ∧
      (s.last_update_afmconv2 ≠ 0 → s.mcu_temp_valid = true) :=
  reachable_invariant [Op.conv2 frame002 2000, Op.reset, Op.conv1 frame001 1000] sampleState
    (by decide)

/-! ## Commutation of the two decoders -/

/-- Claim C16. The two message decoders commute: from every state, with 8-byte
frames `a` and `b` and ticks `t1` and `t2`, decoding `a` as Message 0x001 and
then `b` as Message 0x002 returns the same state as decoding `b` as
Message 0x002 and then `a` as Message 0x001. -/
theorem decoders_commute (a b : List Byte) (s : CANSignals_t) (t1 t2 : Nat)
    (ha : a.length = 8) (hb : b.length = 8) :
    ∃ s' : CANSignals_t,
      (decodeAFMConv1 a s t1).bind (fun s1 => decodeAFMconv2 b s1 t2) = some s' ∧
      (decodeAFMconv2 b s t2).bind (fun s2 => decodeAFMConv1 a s2 t1) = some s' := by
  obtain ⟨raw0, e0⟩ := decodeSignedBE16_some a 0 (by omega) (by omega)
  obtain ⟨raw2, e2⟩ := decodeSignedBE16_some a 2 (by omega) (by omega)
  obtain ⟨raw4, e4⟩ := decodeSignedBE16_some a 4 (by omega) (by omega)
  obtain ⟨raw6, e6⟩ := decodeSignedBE16_some b 6 (by omega) (by omega)
  refine ⟨{ afm_freq := F32.add (F32.mul (F32.ofInt raw0) AFM_FREQ_FACTOR) AFM_FREQ_OFFSET
            tha := F32.add (F32.mul (F32.ofInt raw2) THA_FACTOR) THA_OFFSET
            raw_ga := F32.add (F32.mul (F32.ofInt raw4) RAW_GA_FACTOR) RAW_GA_OFFSET
            mcu_temp := F32.add (F32.mul (F32.ofInt raw6) MCUTEMP_FACTOR) MCUTEMP_OFFSET
            afm_freq_valid := true
            tha_valid := true
            raw_ga_valid := true
            mcu_temp_valid := true
            last_update_afmconv1 := t1 % 2 ^ 32
            last_update_afmconv2 := t2 % 2 ^ 32 }, ?_, ?_⟩
  · rw [decodeAFMConv1_eq a s t1 raw0 raw2 raw4 e0 e2 e4, Option.some_bind,
      decodeAFMconv2_eq b _ t2 raw6 e6]
  · rw [decodeAFMconv2_eq b s t2 raw6 e6, Option.some_bind,
      decodeAFMConv1_eq a _ t1 raw0 raw2 raw4 e0 e2 e4]

/-- Witness of claim C16: the two scenario frames decoded in both orders. -/
theorem decoders_commute_witness :
    ∃ s' : CANSignals_t,
      (decodeAFMConv1 frame001 sampleState 1000).bind
        (fun s1 => decodeAFMconv2 frame002 s1 2000) = some s' ∧
      (decodeAFMconv2 frame002 sampleState 2000).bind
        (fun s2 => decodeAFMConv1 frame001 s2 1000) = some s' :=
  decoders_commute frame001 frame002 sampleState 1000 2000 (by decide) (by decide)

/-! ## Lossless decoding of the frequency -/

/-- Rounding is exact on an integer `r` of at most 24 bits scaled by a power of
two, when the result is a multiple of the subnormal spacing below `2 ^ 128`. -/
theorem F32.round_int (r : Int) (j s : Nat) (hr : r.natAbs < 2 ^ 24) (hj : s ≤ j)
    (hfin : r.natAbs * 2 ^ (j - s) < 2 ^ 277) :
    F32.round (decide (r * 2 ^ j < 0)) (r * 2 ^ j).natAbs 1 s = F32.fin (r * 2 ^ (j - s)) := by
  have habs : (r * 2 ^ j).natAbs = r.natAbs * 2 ^ j := by
    rw [Int.natAbs_mul, Int.natAbs_pow]
    rfl
  have hpos : (0 : Int) < 2 ^ j := pow_pos (by norm_num) j
  rw [habs, F32.round_exact _ r.natAbs j s hr hj hfin]
  congr 1
  by_cases h0 : r < 0
  · have hneg : r * 2 ^ j < 0 := Int.mul_neg_of_neg_of_pos h0 hpos
    have e : (r.natAbs : Int) = -r := by omega
    simp only [hneg, decide_True, if_true, Nat.cast_mul, e, Nat.cast_pow, Nat.cast_ofNat]
    ring
  · have hnn : ¬ r * 2 ^ j < 0 := not_lt.mpr (Int.mul_nonneg (not_lt.mp h0) hpos.le)
    have e : (r.natAbs : Int) = r := by omega
    simp only [hnn, decide_False, Nat.cast_mul, e, Nat.cast_pow, Nat.cast_ofNat]
    simp

/-- In binary32, `r * 1.0f + 0.0f` is `r` for every 16-bit integer `r`. -/
theorem scale_freq_exact (r : Int) (hmin : -32768 ≤ r) (hmax : r ≤ 32767) :
    F32.add (F32.mul (F32.ofInt r) AFM_FREQ_FACTOR) AFM_FREQ_OFFSET = F32.fin (r * 2 ^ 149) := by
  have hn : r.natAbs < 2 ^ 24 := by
    have : (2 : Nat) ^ 24 = 16777216 := by norm_num
    omega
  have hf : AFM_FREQ_FACTOR = F32.fin (2 ^ 149) := lit_one
  have ho : AFM_FREQ_OFFSET = F32.fin 0 := lit_zero
  have hb : r.natAbs * 2 ^ 149 < 2 ^ 277 :=
    calc r.natAbs * 2 ^ 149 < 2 ^ 24 * 2 ^ 149 :=
          Nat.mul_lt_mul_of_pos_right hn (Nat.two_pow_pos 149)
      _ < 2 ^ 277 := by norm_num
  have hm : F32.mul (F32.fin (r * 2 ^ 149)) (F32.fin (2 ^ 149)) = F32.fin (r * 2 ^ 149) := by
    simp only [F32.mul]
    have e : r * 2 ^ 149 * 2 ^ 149 = r * 2 ^ (149 + 149) := by rw [pow_add, mul_assoc]
    rw [e, F32.round_int r (149 + 149) 149 hn (Nat.le_add_left _ _)
      (by rw [Nat.add_sub_cancel]; exact hb), Nat.add_sub_cancel]
  have ha : F32.add (F32.fin (r * 2 ^ 149)) (F32.fin 0) = F32.fin (r * 2 ^ 149) := by
    simp only [F32.add]
    rw [add_zero, F32.round_int r 149 0 hn (Nat.zero_le _) (by rw [Nat.sub_zero]; exact hb),
      Nat.sub_zero]
  rw [F32.ofInt_exact r hn, hf, ho, hm, ha]

/-- The cast to `int16_t` lands in the 16-bit range. -/
theorem toInt16_range (v : Int) : -32768 ≤ toInt16 v ∧ toInt16 v ≤ 32767 := by
  unfold toInt16
  split_ifs <;> omega

/-- Two byte pairs spell the same 16-bit integer only when they are equal. -/
theorem toInt16_bytes_inj (hi lo hi' lo' : Byte) :
    toInt16 (256 * (hi.val : Int) + (lo.val : Int)) =
      toInt16 (256 * (hi'.val : Int) + (lo'.val : Int)) ↔ hi = hi' ∧ lo = lo' := by
  have h1 := hi.isLt
  have h2 := lo.isLt
  have h3 := hi'.isLt
  have h4 := lo'.isLt
  rw [Fin.ext_iff, Fin.ext_iff]
  unfold toInt16
  constructor
  · intro h
    split_ifs at h <;> omega
  · rintro ⟨e1, e2⟩
    rw [e1, e2]

/-- The byte decoder at offset 0 of a buffer of at least two bytes. -/
theorem decodeSignedBE16_zero (a : List Byte) (h0 : 0 < a.length) (h1 : 1 < a.length) :
    decodeSignedBE16 a 0 = some (toInt16 (256 * ((a[0]).val : Int) + ((a[1]).val : Int))) := by
  have r0 : readByte a 0 = some a[0] := by
    simpa [List.getElem?_eq_getElem h0] using readByte_natCast a 0
  have r1 : readByte a (0 + 1) = some a[1] := by
    simpa [List.getElem?_eq_getElem h1] using readByte_natCast a 1
  exact decodeSignedBE16_of_read a 0 a[0] a[1] r0 r1

/-- Claim C17. The frequency is decoded without loss: on every 8-byte frame the
`afm_freq` stored by `decodeAFMConv1` is the binary32 conversion of the integer
decoded at offset 0 and has exactly that integer as its value, an integer in
`[-32768, 32767]`; and two 8-byte frames store the same `afm_freq` if and only
if their bytes 0 and 1 are equal. -/
theorem afm_freq_lossless (a b : List Byte) (s1 s2 : CANSignals_t) (t1 t2 : Nat)
    (ha : a.length = 8) (hb : b.length = 8) :
    ∃ (ra rb : Int) (sa sb : CANSignals_t),
      decodeSignedBE16 a 0 = some ra ∧ decodeSignedBE16 b 0 = some rb ∧
      decodeAFMConv1 a s1 t1 = some sa ∧ decodeAFMConv1 b s2 t2 = some sb ∧
      sa.afm_freq = F32.ofInt ra ∧ sa.afm_freq.toRat = some (ra : ℚ) ∧
      -32768 ≤ ra ∧ ra ≤ 32767 ∧
      (sa.afm_freq = sb.afm_freq ↔ a[0]? = b[0]? ∧ a[1]? = b[1]?) := by
  have la0 : 0 < a.length := by omega
  have la1 : 1 < a.length := by omega
  have lb0 : 0 < b.length := by omega
  have lb1 : 1 < b.length := by omega
  have ea := decodeSignedBE16_zero a la0 la1
  have eb := decodeSignedBE16_zero b lb0 lb1
  obtain ⟨a2, ea2⟩ := decodeSignedBE16_some a 2 (by omega) (by omega)
  obtain ⟨a4, ea4⟩ := decodeSignedBE16_some a 4 (by omega) (by omega)
  obtain ⟨b2, eb2⟩ := decodeSignedBE16_some b 2 (by omega) (by omega)
  obtain ⟨b4, eb4⟩ := decodeSignedBE16_some b 4 (by omega) (by omega)
  obtain ⟨amin, amax⟩ := toInt16_range (256 * ((a[0]).val : Int) + ((a[1]).val : Int))
  obtain ⟨bmin, bmax⟩ := toInt16_range (256 * ((b[0]).val : Int) + ((b[1]).val : Int))
  have hn : (toInt16 (256 * ((a[0]).val : Int) + ((a[1]).val : Int))).natAbs < 2 ^ 24 := by
    have : (2 : Nat) ^ 24 = 16777216 := by norm_num
    omega
  have fa := scale_freq_exact _ amin amax
  have fb := scale_freq_exact _ bmin bmax
  refine ⟨_, _, _, _, ea, eb, decodeAFMConv1_eq a s1 t1 _ a2 a4 ea ea2 ea4,
    decodeAFMConv1_eq b s2 t2 _ b2 b4 eb eb2 eb4, ?_, ?_, amin, amax, ?_⟩
  · exact fa.trans (F32.ofInt_exact _ hn).symm
  · exact (congrArg F32.toRat fa).trans (toRat_fin_int _)
  · rw [List.getElem?_eq_getElem la0, List.getElem?_eq_getElem la1,
      List.getElem?_eq_getElem lb0, List.getElem?_eq_getElem lb1,
      Option.some.injEq, Option.some.injEq, ← toInt16_bytes_inj]
    constructor
    · intro h
      have h' := fa.symm.trans (h.trans fb)
      rw [F32.fin.injEq] at h'
      exact mul_right_cancel₀ (pow_ne_zero 149 (by norm_num)) h'
    · intro h
      exact fa.trans ((congrArg (fun r : Int => F32.fin (r * 2 ^ 149)) h).trans fb.symm)

/-- Witness of claim C17: the frame `07 D0 01 2C 00 64 00 00` and the all-zero
frame. -/
theorem afm_freq_lossless_witness :
    ∃ (ra rb : Int) (sa sb : CANSignals_t),
      decodeSignedBE16 frame001 0 = some ra ∧ decodeSignedBE16 frameZero 0 = some rb ∧
      decodeAFMConv1 frame001 sampleState 1000 = some sa ∧
      decodeAFMConv1 frameZero sampleState 2000 = some sb ∧
      sa.afm_freq = F32.ofInt ra ∧ sa.afm_freq.toRat = some (ra : ℚ) ∧
      -32768 ≤ ra ∧ ra ≤ 32767 ∧
      (sa.afm_freq = sb.afm_freq ↔
        frame001[0]? = frameZero[0]? ∧ frame001[1]? = frameZero[1]?) :=
  afm_freq_lossless frame001 frameZero sampleState sampleState 1000 2000 (by decide) (by decide)

end CanSignals
